import Mathlib

/-!
Shallow embedding of the satisfactory-save-file parser
(src/lib.rs and src/zlib_reader.rs of the MakotoE/satisfactory-save-file crate).

Byte streams are modelled as `List Nat` (each element a byte value < 256 on
well-formed inputs); readers consume from the front of the list and return the
value read together with the remaining stream.  Fallible Rust code returning
`anyhow::Result` / `std::io::Result` is modelled with `Except RsError`.
Machine integers are modelled as `Int`/`Nat` with explicit two's-complement
reduction where the Rust code can wrap.  Release-profile semantics are used for
arithmetic (overflow wraps); a panic that occurs in every build profile
(`Vec` capacity overflow when a requested allocation exceeds `isize::MAX`
bytes) is modelled by the distinguished error `RsError.panic`.
-/

set_option maxRecDepth 100000

namespace Sat

/-- Error outcomes of the Rust code: `eof` models `std::io::ErrorKind::UnexpectedEof`,
`err` models any other error (`anyhow::Error::msg`, `TryFromIntError`, wrapped io
errors), and `panic` models a Rust panic/abort (which is not a returned error). -/
inductive RsError where
  | eof : RsError
  | err : String → RsError
  | panic : RsError
deriving DecidableEq, Repr

instance {ε α : Type} [DecidableEq ε] [DecidableEq α] : DecidableEq (Except ε α)
  | .ok a, .ok b =>
    if h : a = b then .isTrue (by rw [h]) else .isFalse (fun hc => h (Except.ok.inj hc))
  | .ok _, .error _ => .isFalse (fun hc => Except.noConfusion hc)
  | .error _, .ok _ => .isFalse (fun hc => Except.noConfusion hc)
  | .error e, .error f =>
    if h : e = f then .isTrue (by rw [h]) else .isFalse (fun hc => h (Except.error.inj hc))

/-- Little-endian encoding of `n` into `w` bytes (least significant first). -/
def natToLE : Nat → Nat → List Nat
  | 0, _ => []
  | w + 1, n => n % 256 :: natToLE w (n / 256)

/-- Little-endian decoding of a byte list into a natural number. -/
def leToNat : List Nat → Nat
  | [] => 0
  | b :: rest => b % 256 + 256 * leToNat rest

/-- Reads exactly `n` bytes from the stream, failing with `UnexpectedEof`
when fewer are available (the behaviour of `Read::read_exact` on a slice/file
that is too short, as surfaced by the `byteorder` reader methods). -/
def takeExact (n : Nat) (s : List Nat) : Except RsError (List Nat × List Nat) :=
  if n ≤ s.length then .ok (s.take n, s.drop n) else .error .eof

/-- Two's-complement interpretation of a `w*8`-bit unsigned value. -/
def toSigned (w : Nat) (n : Nat) : Int :=
  if n < 2 ^ (8 * w - 1) then (n : Int) else (n : Int) - 2 ^ (8 * w)

/-- `file.read_u8()`: one byte. -/
def readU8 (s : List Nat) : Except RsError (Nat × List Nat) := do
  let (b, s) ← takeExact 1 s
  .ok (leToNat b, s)

/-- `file.read_i32::<LittleEndian>()`. -/
def readI32 (s : List Nat) : Except RsError (Int × List Nat) := do
  let (b, s) ← takeExact 4 s
  .ok (toSigned 4 (leToNat b), s)

/-- `file.read_u32::<LittleEndian>()`. -/
def readU32 (s : List Nat) : Except RsError (Nat × List Nat) := do
  let (b, s) ← takeExact 4 s
  .ok (leToNat b, s)

/-- `file.read_i64::<LittleEndian>()`. -/
def readI64 (s : List Nat) : Except RsError (Int × List Nat) := do
  let (b, s) ← takeExact 8 s
  .ok (toSigned 8 (leToNat b), s)

/-- Little-endian byte encoding of an `i32` value (two's complement). -/
def i32ToLE (v : Int) : List Nat := natToLE 4 ((v % 2 ^ 32).toNat)

/-- Little-endian byte encoding of an `i64` value (two's complement). -/
def i64ToLE (v : Int) : List Nat := natToLE 8 ((v % 2 ^ 64).toNat)

example : readI32 (i32ToLE (-1) ++ [7]) = .ok (-1, [7]) := by decide
example : readI32 (i32ToLE (-2147483648)) = .ok (-2147483648, []) := by decide
example : readI64 (i64ToLE 0x9E2A83C1) = .ok (0x9E2A83C1, []) := by decide

/-!
### Text codecs

Rust `String` values are modelled as lists of Unicode scalar values
(`List Nat`).  The functions below model the Rust standard-library codecs used
by `read_string`: `String::from_utf8_lossy` and `String::from_utf16_lossy`
(ill-formed sequences are replaced by U+FFFD, decoding never fails), plus the
corresponding encoders used to state the §6 framing round-trip properties.
-/

/-- A Unicode scalar value: a code point that is not a surrogate. -/
def ValidScalar (c : Nat) : Prop := c < 0x110000 ∧ ¬(0xD800 ≤ c ∧ c < 0xE000)

instance (c : Nat) : Decidable (ValidScalar c) := by
  unfold ValidScalar; infer_instance

/-- UTF-8 encoding of one Unicode scalar value. -/
def utf8EncodeChar (c : Nat) : List Nat :=
  if c < 0x80 then [c]
  else if c < 0x800 then [0xC0 + c / 64, 0x80 + c % 64]
  else if c < 0x10000 then [0xE0 + c / 4096, 0x80 + c / 64 % 64, 0x80 + c % 64]
  else [0xF0 + c / 262144, 0x80 + c / 4096 % 64, 0x80 + c / 64 % 64, 0x80 + c % 64]

/-- UTF-8 encoding of a text value. -/
def utf8Encode (t : List Nat) : List Nat := (t.map utf8EncodeChar).flatten

/-- Is `b` a UTF-8 continuation byte? -/
def isCont (b : Nat) : Bool := 0x80 ≤ b ∧ b < 0xC0

/-- Model of `String::from_utf8_lossy`: decodes a byte list to a list of
Unicode scalar values, replacing ill-formed sequences by U+FFFD.  On
well-formed input this is exact UTF-8 decoding; on ill-formed input the exact
number of replacement characters may differ from the standard library's
maximal-subpart rule, which no claim depends on. -/
def utf8Decode : List Nat → List Nat
  | [] => []
  | b1 :: rest =>
    if b1 < 0x80 then b1 :: utf8Decode rest
    else if b1 < 0xC2 then 0xFFFD :: utf8Decode rest
    else
      match rest with
      | [] => [0xFFFD]
      | b2 :: rest2 =>
        if b1 < 0xE0 then
          if isCont b2 then ((b1 - 0xC0) * 64 + (b2 - 0x80)) :: utf8Decode rest2
          else 0xFFFD :: utf8Decode (b2 :: rest2)
        else if b1 < 0xF0 then
          if isCont b2 ∧ (b1 = 0xE0 → 0xA0 ≤ b2) ∧ (b1 = 0xED → b2 < 0xA0) then
            match rest2 with
            | [] => [0xFFFD]
            | b3 :: rest3 =>
              if isCont b3 then
                ((b1 - 0xE0) * 4096 + (b2 - 0x80) * 64 + (b3 - 0x80)) :: utf8Decode rest3
              else 0xFFFD :: utf8Decode (b3 :: rest3)
          else 0xFFFD :: utf8Decode (b2 :: rest2)
        else if b1 < 0xF5 then
          if isCont b2 ∧ (b1 = 0xF0 → 0x90 ≤ b2) ∧ (b1 = 0xF4 → b2 < 0x90) then
            match rest2 with
            | [] => [0xFFFD]
            | b3 :: rest3 =>
              if isCont b3 then
                match rest3 with
                | [] => [0xFFFD]
                | b4 :: rest4 =>
                  if isCont b4 then
                    ((b1 - 0xF0) * 262144 + (b2 - 0x80) * 4096 + (b3 - 0x80) * 64 +
                      (b4 - 0x80)) :: utf8Decode rest4
                  else 0xFFFD :: utf8Decode (b4 :: rest4)
              else 0xFFFD :: utf8Decode (b3 :: rest3)
          else 0xFFFD :: utf8Decode (b2 :: rest2)
        else 0xFFFD :: utf8Decode (b2 :: rest2)

/-- UTF-16 encoding of one Unicode scalar value, as a list of 16-bit code units. -/
def utf16EncodeChar (c : Nat) : List Nat :=
  if c < 0x10000 then [c]
  else [0xD800 + (c - 0x10000) / 0x400, 0xDC00 + (c - 0x10000) % 0x400]

/-- UTF-16 code-unit encoding of a text value. -/
def utf16Encode (t : List Nat) : List Nat := (t.map utf16EncodeChar).flatten

/-- Model of `String::from_utf16_lossy`: decodes 16-bit code units to Unicode
scalar values, replacing unpaired surrogates by U+FFFD. -/
def utf16Decode : List Nat → List Nat
  | [] => []
  | u :: rest =>
    if u < 0xD800 ∨ 0xE000 ≤ u then u :: utf16Decode rest
    else if u < 0xDC00 then
      match rest with
      | u2 :: rest2 =>
        if 0xDC00 ≤ u2 ∧ u2 < 0xE000 then
          (0x10000 + (u - 0xD800) * 0x400 + (u2 - 0xDC00)) :: utf16Decode rest2
        else 0xFFFD :: utf16Decode (u2 :: rest2)
      | [] => [0xFFFD]
    else 0xFFFD :: utf16Decode rest

/-- Groups a byte list into 16-bit little-endian code units (the conversion
performed by `byteorder`'s `read_u16_into::<LittleEndian>`). -/
def bytesToU16 : List Nat → List Nat
  | b1 :: b2 :: rest => (b1 % 256 + 256 * (b2 % 256)) :: bytesToU16 rest
  | _ => []

/-- Serialises 16-bit code units as little-endian byte pairs. -/
def u16sToBytes : List Nat → List Nat
  | [] => []
  | u :: rest => u % 256 :: u / 256 % 256 :: u16sToBytes rest

example : utf8Decode (utf8Encode [0x48, 0x69, 0xE9, 0x4E2D, 0x1F600]) =
    [0x48, 0x69, 0xE9, 0x4E2D, 0x1F600] := by decide
example : utf16Decode (bytesToU16 (u16sToBytes (utf16Encode [0x61, 0x1F600]))) =
    [0x61, 0x1F600] := by decide

/-!
### `read_string` (src/lib.rs lines 220-242)

The Rust code reads a signed 32-bit length prefix and then either

* `length < 0`: resizes a `Vec<u16>` to `((-length) as usize).saturating_sub(1) / 2`
  and fills it with `read_u16_into::<LittleEndian>`, decoding UTF-16 lossily;
* `length ≥ 0`: resizes a `Vec<u8>` to `(length.abs() as usize).saturating_sub(1)`,
  fills it with `read_exact`, consumes one extra (NUL) byte when `length > 0`,
  and decodes UTF-8 lossily.

Release-profile semantics: `-length` wraps on `i32::MIN`; the subsequent
`Vec::resize` requests more than `isize::MAX` bytes and panics
("capacity overflow") in every profile, modelled as `RsError.panic`.
The `debug_assert_eq!` on the NUL byte is a no-op in release builds. -/

/-- Wrapping `i32` negation (`-length` in release profile). -/
def negWrap32 (v : Int) : Int := if v = -(2 ^ 31) then -(2 ^ 31) else -v

/-- The `as usize` cast of an `i32` value on a 64-bit target (sign extension
followed by reinterpretation). -/
def i32AsUsize (v : Int) : Nat := (v % 2 ^ 64).toNat

/-- `read_string` over a raw byte stream; returns the decoded text (list of
Unicode scalar values) and the remaining stream. -/
def readString (s : List Nat) : Except RsError (List Nat × List Nat) := do
  let (length, s) ← readI32 s
  if length < 0 then
    let bufLen := (i32AsUsize (negWrap32 length) - 1) / 2
    if 2 ^ 63 ≤ 2 * bufLen then .error .panic
    else do
      let (payload, s) ← takeExact (2 * bufLen) s
      .ok (utf16Decode (bytesToU16 payload), s)
  else
    let bufLen := length.toNat - 1
    let (payload, s) ← takeExact bufLen s
    if 0 < length then do
      let (_nul, s) ← takeExact 1 s
      .ok (utf8Decode payload, s)
    else
      .ok (utf8Decode payload, s)

example : readString [0, 0, 0, 0] = .ok ([], []) := by decide
example : readString [4, 0, 0, 0, 97, 98, 99, 0, 7] = .ok ([97, 98, 99], [7]) := by decide
example : readString [0xF8, 0xFF, 0xFF, 0xFF, 97, 0, 98, 0, 99, 0, 0, 0] =
    .ok ([97, 98, 99], [0, 0]) := by decide
example : readString [0, 0, 0, 0x80] = .error .panic := by decide
example : readString [1, 0, 0, 0, 0] = .ok ([], []) := by decide

/-!
### `SessionVisiblity` and `WorldProperties` (src/lib.rs lines 104-170)

Rust `&str` values handled by `WorldProperties::new` are modelled as
`List Char`.  `HashMap` built by `collect` is modelled as an insertion fold
where a later insert replaces an earlier entry with the same key; `remove`
returns the stored value and deletes the entry.
-/

inductive SessionVisiblity where
  | SvPrivate : SessionVisiblity
  | SvFriendsOnly : SessionVisiblity
  | SvInvalid : SessionVisiblity
deriving DecidableEq, Repr

/-- `SessionVisiblity::from_u8`. -/
def SessionVisiblity.from_u8 (n : Nat) : Except RsError SessionVisiblity :=
  if n = 0 then .ok .SvPrivate
  else if n = 1 then .ok .SvFriendsOnly
  else if n = 2 then .ok .SvInvalid
  else .error (.err "invalid n")

/-- `SessionVisiblity::parse`. -/
def SessionVisiblity.parse (s : List Char) : Except RsError SessionVisiblity :=
  if s = "SV_Private".data then .ok .SvPrivate
  else if s = "SV_FriendsOnly".data then .ok .SvFriendsOnly
  else if s = "SV_Invalid".data then .ok .SvInvalid
  else .error (.err "invalid s")

structure WorldProperties where
  start_loc : List Char
  session_name : List Char
  visibility : SessionVisiblity
deriving DecidableEq, Repr

/-- Rust `str::split(sep)`: splits on every occurrence of `sep`; the empty
input yields one empty segment, and adjacent/trailing separators yield empty
segments. -/
def rsSplit (sep : Char) : List Char → List (List Char)
  | [] => [[]]
  | c :: rest =>
    if c = sep then [] :: rsSplit sep rest
    else
      match rsSplit sep rest with
      | [] => [[c]]
      | seg :: segs => (c :: seg) :: segs

/-- Rust `str::split_once(sep)`: splits at the first occurrence of `sep`,
returning `none` when `sep` does not occur. -/
def splitOnce (sep : Char) : List Char → Option (List Char × List Char)
  | [] => none
  | c :: rest =>
    if c = sep then some ([], rest)
    else (splitOnce sep rest).map (fun p => (c :: p.1, p.2))

/-- The `map`/`collect::<Result<_>>` over the segments: each segment is split
once on `'='`; a segment without `'='` short-circuits with the
`invalid property` error. -/
def splitSegments : List (List Char) → Except RsError (List (List Char × List Char))
  | [] => .ok []
  | seg :: rest =>
    match splitOnce '=' seg with
    | none => .error (.err ("invalid property: " ++ String.mk seg))
    | some p => do
      let ps ← splitSegments rest
      .ok (p :: ps)

/-- `HashMap` insert: replaces any earlier entry with the same key. -/
def hmInsert (m : List (List Char × List Char)) (kv : List Char × List Char) :
    List (List Char × List Char) :=
  kv :: m.filter (fun p => ¬ p.1 = kv.1)

/-- `HashMap` built by `collect` from a sequence of key/value pairs. -/
def buildMap (pairs : List (List Char × List Char)) : List (List Char × List Char) :=
  pairs.foldl hmInsert []

/-- `HashMap::remove`: returns the stored value (if any) and the map without
that key. -/
def hmRemove (k : List Char) (m : List (List Char × List Char)) :
    Option (List Char) × List (List Char × List Char) :=
  ((m.find? (fun p => p.1 = k)).map (fun p => p.2), m.filter (fun p => ¬ p.1 = k))

/-- `WorldProperties::new` (src/lib.rs lines 112-136). -/
def WorldProperties.new (s : List Char) : Except RsError WorldProperties := do
  let pairs ← splitSegments ((rsSplit '?' s).drop 1)
  let m := buildMap pairs
  let (sl?, m) := hmRemove "startloc".data m
  match sl? with
  | none => .error (.err "property not found")
  | some sl =>
    let (sn?, m) := hmRemove "sessionName".data m
    match sn? with
    | none => .error (.err "property not found")
    | some sn =>
      let (v?, _) := hmRemove "Visibility".data m
      match v? with
      | none => .error (.err "property not found")
      | some v => do
        let vis ← SessionVisiblity.parse v
        .ok ⟨sl, sn, vis⟩

example : (WorldProperties.new "".data).isOk = false := by decide
example : WorldProperties.new "?startloc=Grass Fields?sessionName=test_file?Visibility=SV_Private".data =
    .ok ⟨"Grass Fields".data, "test_file".data, .SvPrivate⟩ := by decide
example : WorldProperties.new "?startloc=a?sessionName=b?Visibility=SV_Private?".data =
    .error (.err "invalid property: ") := by decide
example : WorldProperties.new "?startloc=a?startloc=b?sessionName=c?Visibility=SV_Private".data =
    .ok ⟨"b".data, "c".data, .SvPrivate⟩ := by decide

/-!
### `ChunkedZLibReader` (src/zlib_reader.rs)

The zlib inflate algorithm itself lives in the external `flate2` crate, so it
is abstracted as a parameter `inflate : List Nat → List Nat` mapping the
compressed bytes of a chunk's bounded view (`Take`) to its inflated contents.
The model idealises `ZlibDecoder` in two ways that match the code's own
assumptions (documented in spec §4.5): a read from an unfinished session
always returns `min (buf.len) (remaining)` bytes, and when a session is
unwrapped the upstream is positioned exactly past the chunk's
`compressed_length` bytes.  The upstream is the not-yet-consumed suffix of the
file, so "position past the chunk" is modelled by dropping the chunk's bytes
when the session is opened.
-/

/-- State of a `ChunkedZLibReader`: the remaining upstream bytes and the
active inflate session (`none` after end of logical stream), holding the
not-yet-surfaced inflated bytes of the current chunk. -/
structure ChunkedState where
  upstream : List Nat
  session : Option (List Nat)
deriving DecidableEq, Repr

/-- `ChunkedZLibReader::read_header` (lines 27-46): reads the fixed 48-byte
frame header and returns `chunk_compressed_length` converted to `u64`
(failing on a negative value, the `try_into` on line 45).  The unexpected-tag
and unexpected-max-chunk-size branches only log and are not observable here. -/
def readHeader (s : List Nat) : Except RsError (Nat × List Nat) := do
  let (_package_file_tag, s) ← readI64 s
  let (_max_chunk_size, s) ← readI64 s
  let (chunk_compressed_length, s) ← readI64 s
  let (_uncompressed_length, s) ← readI64 s
  let (_dup_compressed, s) ← readI64 s
  let (_dup_uncompressed, s) ← readI64 s
  if chunk_compressed_length < 0 then .error (.err "out of range integral type conversion")
  else .ok (chunk_compressed_length.toNat, s)

/-- `ChunkedZLibReader::new` (lines 15-25): reads the first frame header,
opens an inflate session over the bounded view, and consumes the 4-byte inner
data-length from the inflated stream (`decoder.read_i32`, line 20). -/
def ChunkedZLibReader.new (inflate : List Nat → List Nat) (s : List Nat) :
    Except RsError ChunkedState := do
  let (chunk_length, s) ← readHeader s
  let inflated := inflate (s.take chunk_length)
  if inflated.length < 4 then .error .eof
  else .ok ⟨s.drop chunk_length, some (inflated.drop 4)⟩

/-- `<ChunkedZLibReader as Read>::read` (lines 49-87) with a buffer of length
`bufLen`; returns the bytes placed in the buffer.  When the session returns
fewer bytes than requested the reader treats the chunk as finished: it
unwraps the upstream and reads the next frame header; `UnexpectedEof` there
ends the logical stream (the in-flight read returns what it got and the
session slot stays empty), any other header failure becomes an io error, and
otherwise a new session is opened — without consuming a 4-byte inner
data-length — and a read that had obtained zero bytes is reissued directly on
the new session. -/
def chunkRead (inflate : List Nat → List Nat) (bufLen : Nat) (st : ChunkedState) :
    Except RsError (List Nat × ChunkedState) :=
  match st.session with
  | none => .ok ([], st)
  | some rem =>
    let bytes := rem.take bufLen
    if bytes.length < bufLen then
      match readHeader st.upstream with
      | .error e =>
        if e = .eof then .ok (bytes, ⟨st.upstream, none⟩)
        else .error (.err "io error")
      | .ok (chunk_length, up) =>
        let inflated := inflate (up.take chunk_length)
        let up := up.drop chunk_length
        if bytes.length = 0 then
          .ok (inflated.take bufLen, ⟨up, some (inflated.drop bufLen)⟩)
        else
          .ok (bytes, ⟨up, some inflated⟩)
    else
      .ok (bytes, ⟨st.upstream, some (rem.drop bufLen)⟩)

/-- A consumer loop reading `bufLen` bytes at a time until a read returns zero
bytes (end of stream), with explicit fuel; collects everything read. -/
def readToEnd (inflate : List Nat → List Nat) (bufLen : Nat) :
    Nat → ChunkedState → Except RsError (List Nat)
  | 0, _ => .error (.err "fuel")
  | fuel + 1, st => do
    let (bytes, st) ← chunkRead inflate bufLen st
    if bytes.isEmpty then .ok []
    else do
      let rest ← readToEnd inflate bufLen fuel st
      .ok (bytes ++ rest)

/-- The serialised frame header preceding a chunk whose compressed payload has
length `clen` and whose inflated contents have length `ulen`. -/
def chunkHeaderBytes (clen ulen : Nat) : List Nat :=
  i64ToLE 0x9E2A83C1 ++ i64ToLE 0x20000 ++ i64ToLE clen ++ i64ToLE ulen ++
    i64ToLE clen ++ i64ToLE ulen

/-- Serialises a compressed body: each chunk is its frame header followed by
its compressed payload. -/
def serializeChunks (inflate : List Nat → List Nat) : List (List Nat) → List Nat
  | [] => []
  | c :: cs => chunkHeaderBytes c.length (inflate c).length ++ c ++ serializeChunks inflate cs

/-- Concrete two-chunk inflate oracle used in concrete evaluations. -/
def inflTwo : List Nat → List Nat
  | [10] => [1, 2, 3, 4, 5]
  | [20] => [6, 7, 8, 9, 10]
  | _ => []

example :
    (do
      let st ← ChunkedZLibReader.new inflTwo (serializeChunks inflTwo [[10], [20]])
      readToEnd inflTwo 3 20 st) = .ok [5, 6, 7, 8, 9, 10] := by decide

/-!
### Reading through the chunked reader

`byteorder`'s typed reads and `read_string` are generic over `R: Read`; the
instantiations at `R = ChunkedZLibReader` go through `Read::read_exact`, which
loops calling `read` on the unfilled remainder of the buffer and fails with
`UnexpectedEof` if a read returns zero bytes first.  The fuel argument is an
artifact of the embedding; `n + 1` fuel always suffices for a request of `n`
bytes because every successful loop iteration transfers at least one byte.
-/

def readExactC (inflate : List Nat → List Nat) :
    Nat → Nat → ChunkedState → Except RsError (List Nat × ChunkedState)
  | 0, _, _ => .error (.err "fuel")
  | fuel + 1, n, st =>
    if n = 0 then .ok ([], st)
    else do
      let (bytes, st) ← chunkRead inflate n st
      if bytes.length = 0 then .error .eof
      else do
        let (rest, st) ← readExactC inflate fuel (n - bytes.length) st
        .ok (bytes ++ rest, st)

/-- `read_u8` on the chunked reader. -/
def readU8C (inflate : List Nat → List Nat) (st : ChunkedState) :
    Except RsError (Nat × ChunkedState) := do
  let (b, st) ← readExactC inflate 2 1 st
  .ok (leToNat b, st)

/-- `read_i32::<LittleEndian>` on the chunked reader. -/
def readI32C (inflate : List Nat → List Nat) (st : ChunkedState) :
    Except RsError (Int × ChunkedState) := do
  let (b, st) ← readExactC inflate 5 4 st
  .ok (toSigned 4 (leToNat b), st)

/-- `read_u32::<LittleEndian>` on the chunked reader. -/
def readU32C (inflate : List Nat → List Nat) (st : ChunkedState) :
    Except RsError (Nat × ChunkedState) := do
  let (b, st) ← readExactC inflate 5 4 st
  .ok (leToNat b, st)

/-- `read_f32::<LittleEndian>` on the chunked reader; IEEE-754 values are kept
as their raw 32-bit little-endian bit patterns (no claim concerns float
arithmetic). -/
def readF32C (inflate : List Nat → List Nat) (st : ChunkedState) :
    Except RsError (Nat × ChunkedState) := do
  let (b, st) ← readExactC inflate 5 4 st
  .ok (leToNat b, st)

/-- `read_string` instantiated at `R = ChunkedZLibReader` (same logic as
`readString`, reading through the chunked reader). -/
def readStringC (inflate : List Nat → List Nat) (st : ChunkedState) :
    Except RsError (List Nat × ChunkedState) := do
  let (length, st) ← readI32C inflate st
  if length < 0 then
    let bufLen := (i32AsUsize (negWrap32 length) - 1) / 2
    if 2 ^ 63 ≤ 2 * bufLen then .error .panic
    else do
      let (payload, st) ← readExactC inflate (2 * bufLen + 1) (2 * bufLen) st
      .ok (utf16Decode (bytesToU16 payload), st)
  else
    let bufLen := length.toNat - 1
    let (payload, st) ← readExactC inflate (bufLen + 1) bufLen st
    if 0 < length then do
      let (_nul, st) ← readExactC inflate 2 1 st
      .ok (utf8Decode payload, st)
    else
      .ok (utf8Decode payload, st)

/-!
### `SaveObject` and vectors (src/lib.rs lines 172-302)
-/

structure Vector3 where
  x : Nat
  y : Nat
  z : Nat
deriving DecidableEq, Repr

/-- `Vector3::parse`. -/
def Vector3.parse (inflate : List Nat → List Nat) (st : ChunkedState) :
    Except RsError (Vector3 × ChunkedState) := do
  let (x, st) ← readF32C inflate st
  let (y, st) ← readF32C inflate st
  let (z, st) ← readF32C inflate st
  .ok (⟨x, y, z⟩, st)

structure Vector4 where
  x : Nat
  y : Nat
  z : Nat
  w : Nat
deriving DecidableEq, Repr

/-- `Vector4::parse`. -/
def Vector4.parse (inflate : List Nat → List Nat) (st : ChunkedState) :
    Except RsError (Vector4 × ChunkedState) := do
  let (x, st) ← readF32C inflate st
  let (y, st) ← readF32C inflate st
  let (z, st) ← readF32C inflate st
  let (w, st) ← readF32C inflate st
  .ok (⟨x, y, z, w⟩, st)

inductive SaveObject where
  | SaveComponent
      (type_path : List Nat) (root_object : List Nat)
      (instance_name : List Nat) (parent_entity_name : List Nat) : SaveObject
  | SaveEntity
      (type_path : List Nat) (root_object : List Nat) (instance_name : List Nat)
      (need_transform : Bool) (rotation : Vector4) (position : Vector3)
      (scale : Vector3) (was_placed_in_level : Bool) : SaveObject
deriving DecidableEq, Repr

/-- `SaveObject::parse` (lines 193-217): a 32-bit tag dispatching to one of
the two record shapes; any other tag is an error. -/
def SaveObject.parse (inflate : List Nat → List Nat) (st : ChunkedState) :
    Except RsError (SaveObject × ChunkedState) := do
  let (object_type, st) ← readI32C inflate st
  if object_type = 0 then do
    let (type_path, st) ← readStringC inflate st
    let (root_object, st) ← readStringC inflate st
    let (instance_name, st) ← readStringC inflate st
    let (parent_entity_name, st) ← readStringC inflate st
    .ok (.SaveComponent type_path root_object instance_name parent_entity_name, st)
  else if object_type = 1 then do
    let (type_path, st) ← readStringC inflate st
    let (root_object, st) ← readStringC inflate st
    let (instance_name, st) ← readStringC inflate st
    let (nt, st) ← readI32C inflate st
    let (rotation, st) ← Vector4.parse inflate st
    let (position, st) ← Vector3.parse inflate st
    let (scale, st) ← Vector3.parse inflate st
    let (wp, st) ← readI32C inflate st
    .ok (.SaveEntity type_path root_object instance_name (nt = 1)
          rotation position scale (wp = 1), st)
  else .error (.err "unknown object type")

/-!
### `SaveFile::parse` (src/lib.rs lines 41-73)

`play_time` is `Duration::seconds(file.read_i32()?.try_into()?)`: the
`try_into` is the infallible `i32 → i64` conversion, so the field is modelled
as the raw signed value in seconds, whatever its sign.  `save_date` is
`zero_date + Duration::nanoseconds(n) * 100`, modelled as the tick offset
`100 * n` nanoseconds from the anchor `0001-01-01T12:00:00Z`.
`is_modded_save` is `file.read_i32()? > 0`.
-/

structure SaveFile where
  save_header : Int
  save_version : Int
  build_version : Int
  world_type : List Nat
  world_properties : WorldProperties
  session_name : List Nat
  play_time : Int
  save_date : Int
  session_visibility : SessionVisiblity
  editor_object_version : Int
  mod_meta_data : List Nat
  is_modded_save : Bool
  save_objects : List SaveObject
deriving DecidableEq, Repr

/-- Conversion of decoded Unicode scalar values to `List Char` (the `String`
handed by `SaveFile::parse` to `WorldProperties::new`). -/
def toChars (t : List Nat) : List Char := t.map Char.ofNat

/-- The header part of `SaveFile::parse`: the struct-literal field reads of
lines 48-62, in source order, with `save_objects` initialised empty. -/
def SaveFile.parseHeader (s : List Nat) : Except RsError (SaveFile × List Nat) := do
  let (save_header, s) ← readI32 s
  let (save_version, s) ← readI32 s
  let (build_version, s) ← readI32 s
  let (world_type, s) ← readString s
  let (wpText, s) ← readString s
  let world_properties ← WorldProperties.new (toChars wpText)
  let (session_name, s) ← readString s
  let (play_time_raw, s) ← readI32 s
  let (save_date_raw, s) ← readI64 s
  let (vis_raw, s) ← readU8 s
  let session_visibility ← SessionVisiblity.from_u8 vis_raw
  let (editor_object_version, s) ← readI32 s
  let (mod_meta_data, s) ← readString s
  let (is_modded_raw, s) ← readI32 s
  .ok ({ save_header, save_version, build_version, world_type, world_properties,
         session_name,
         play_time := play_time_raw,
         save_date := 100 * save_date_raw,
         session_visibility, editor_object_version, mod_meta_data,
         is_modded_save := 0 < is_modded_raw,
         save_objects := [] }, s)

/-- The object loop of lines 67-71: parses `n` objects in stream order; any
failure aborts the whole computation (`Except` short-circuits, matching `?`).
-/
def parseObjects (inflate : List Nat → List Nat) :
    Nat → ChunkedState → Except RsError (List SaveObject × ChunkedState)
  | 0, st => .ok ([], st)
  | n + 1, st => do
    let (o, st) ← SaveObject.parse inflate st
    let (os, st) ← parseObjects inflate n st
    .ok (o :: os, st)

/-- `SaveFile::parse`: header fields, then the chunked reader over the
remaining bytes, the `u32` object count, and the object loop. -/
def SaveFile.parse (inflate : List Nat → List Nat) (s : List Nat) :
    Except RsError SaveFile := do
  let (sf, s) ← SaveFile.parseHeader s
  let st ← ChunkedZLibReader.new inflate s
  let (world_object_count, st) ← readU32C inflate st
  let (objs, _) ← parseObjects inflate world_object_count st
  .ok { sf with save_objects := objs }

/-!
### Probes for raw header fields

These re-run the pure stream reads of `parseHeader` up to a field of interest
and return the raw integer there; they let theorems relate a parsed field to
the raw bytes it came from.
-/

/-- The raw `i32` values of the `play_time` and `is_modded_save` fields of a
save-file header, located by re-running the preceding reads. -/
def headerRawProbe (s : List Nat) : Except RsError (Int × Int) := do
  let (_, s) ← readI32 s
  let (_, s) ← readI32 s
  let (_, s) ← readI32 s
  let (_, s) ← readString s
  let (_, s) ← readString s
  let (_, s) ← readString s
  let (play_time_raw, s) ← readI32 s
  let (_, s) ← readI64 s
  let (_, s) ← readU8 s
  let (_, s) ← readI32 s
  let (_, s) ← readString s
  let (is_modded_raw, _) ← readI32 s
  .ok (play_time_raw, is_modded_raw)

/-- The `u32 world_object_count` declared at the start of the decompressed
body, located by re-running the header reads and opening the chunked reader. -/
def bodyCountOf (inflate : List Nat → List Nat) (s : List Nat) : Except RsError Nat := do
  let (_, s) ← SaveFile.parseHeader s
  let st ← ChunkedZLibReader.new inflate s
  let (world_object_count, _) ← readU32C inflate st
  .ok world_object_count

/-!
### A concrete well-formed input

`exInput` is a complete save file whose header has `play_time = -1` and
`is_modded_save` raw value `-1`, and whose compressed body is a single chunk
declaring zero objects.  `exInfl` is the inflate oracle for its body.
-/

def exInfl : List Nat → List Nat := fun _ => [0, 0, 0, 0, 0, 0, 0, 0]

/-- UTF-8 §6 framing of a byte payload: `L = len + 1`, payload, NUL. -/
def strEnc (b : List Nat) : List Nat := i32ToLE (b.length + 1) ++ b ++ [0]

def exWpText : List Char := "?startloc=a?sessionName=b?Visibility=SV_Private".data

def exInput : List Nat :=
  i32ToLE 8 ++ i32ToLE 25 ++ i32ToLE 152331 ++
  i32ToLE 0 ++
  strEnc (exWpText.map Char.toNat) ++
  i32ToLE 0 ++
  i32ToLE (-1) ++
  i64ToLE 0 ++
  [0] ++
  i32ToLE 0 ++
  i32ToLE 0 ++
  i32ToLE (-1) ++
  serializeChunks exInfl [[1]]

example : Except.map SaveFile.play_time (SaveFile.parse exInfl exInput) = .ok (-1) := by decide
example : Except.map SaveFile.is_modded_save (SaveFile.parse exInfl exInput) = .ok false := by
  decide
example : Except.map Prod.snd (headerRawProbe exInput) = .ok (-1) := by decide
example : bodyCountOf exInfl exInput = .ok 0 := by decide

/-!
## Lemmas

### Little-endian primitives
-/

theorem natToLE_length (w n : Nat) : (natToLE w n).length = w := by
  induction w generalizing n with
  | zero => rfl
  | succ w ih => simp [natToLE, ih]

theorem leToNat_natToLE (w n : Nat) (h : n < 2 ^ (8 * w)) :
    leToNat (natToLE w n) = n := by
  induction w generalizing n with
  | zero => simp only [natToLE, leToNat]; omega
  | succ w ih =>
    have hdiv : n / 256 < 2 ^ (8 * w) := by
      have : 2 ^ (8 * (w + 1)) = 2 ^ (8 * w) * 256 := by ring
      omega
    simp only [natToLE, leToNat, ih _ hdiv]
    omega

theorem takeExact_append (a r : List Nat) :
    takeExact a.length (a ++ r) = .ok (a, r) := by
  simp [takeExact, List.take_left, List.drop_left]

theorem takeExact_append_of_len (n : Nat) (a r : List Nat) (h : a.length = n) :
    takeExact n (a ++ r) = .ok (a, r) := by
  subst h; exact takeExact_append a r

theorem toSigned_emod32 (v : Int) (h1 : -(2 ^ 31) ≤ v) (h2 : v < 2 ^ 31) :
    toSigned 4 ((v % 2 ^ 32).toNat) = v := by
  unfold toSigned
  split <;> omega

theorem toSigned_emod64 (v : Int) (h1 : -(2 ^ 63) ≤ v) (h2 : v < 2 ^ 63) :
    toSigned 8 ((v % 2 ^ 64).toNat) = v := by
  unfold toSigned
  split <;> omega

theorem readI32_i32ToLE (v : Int) (r : List Nat) (h1 : -(2 ^ 31) ≤ v) (h2 : v < 2 ^ 31) :
    readI32 (i32ToLE v ++ r) = .ok (v, r) := by
  have hlen : (i32ToLE v).length = 4 := natToLE_length 4 _
  have hle : leToNat (i32ToLE v) = (v % 2 ^ 32).toNat := by
    apply leToNat_natToLE
    omega
  simp only [readI32, bind, Except.bind, takeExact_append_of_len 4 _ r hlen, hle,
    toSigned_emod32 v h1 h2]

theorem readI64_i64ToLE (v : Int) (r : List Nat) (h1 : -(2 ^ 63) ≤ v) (h2 : v < 2 ^ 63) :
    readI64 (i64ToLE v ++ r) = .ok (v, r) := by
  have hlen : (i64ToLE v).length = 8 := natToLE_length 8 _
  have hle : leToNat (i64ToLE v) = (v % 2 ^ 64).toNat := by
    apply leToNat_natToLE
    omega
  simp only [readI64, bind, Except.bind, takeExact_append_of_len 8 _ r hlen, hle,
    toSigned_emod64 v h1 h2]

theorem readI64_eof (s : List Nat) (h : s.length < 8) : readI64 s = .error .eof := by
  simp only [readI64, takeExact, bind, Except.bind]
  rw [if_neg (by omega)]

theorem readI64_ok_length (s : List Nat) (h : 8 ≤ s.length) :
    readI64 s = .ok (toSigned 8 (leToNat (s.take 8)), s.drop 8) := by
  simp only [readI64, takeExact, bind, Except.bind]
  rw [if_pos h]

theorem bind_readI64 {α : Type} (s : List Nat) (f : Int × List Nat → Except RsError α) :
    (readI64 s >>= f) =
      if 8 ≤ s.length then f (toSigned 8 (leToNat (s.take 8)), s.drop 8)
      else .error .eof := by
  by_cases h : 8 ≤ s.length
  · rw [readI64_ok_length s h, if_pos h]; rfl
  · rw [readI64_eof s (by omega), if_neg h]; rfl

theorem bind_readI64_enc {α : Type} (v : Int) (r : List Nat)
    (f : Int × List Nat → Except RsError α) (h1 : -(2 ^ 63) ≤ v) (h2 : v < 2 ^ 63) :
    (readI64 (i64ToLE v ++ r) >>= f) = f (v, r) := by
  rw [readI64_i64ToLE v r h1 h2]; rfl

/-- A truncated stream (< 48 bytes) makes `read_header` fail with
`UnexpectedEof`. -/
theorem readHeader_eof (s : List Nat) (h : s.length < 48) : readHeader s = .error .eof := by
  unfold readHeader
  simp only [bind_readI64, List.length_drop]
  repeat' split
  all_goals first | rfl | omega

/-- `read_header` on a serialised frame header returns the chunk's compressed
length and the rest of the stream. -/
theorem readHeader_chunk (clen ulen : Nat) (r : List Nat)
    (hc : clen < 2 ^ 63) (hu : ulen < 2 ^ 63) :
    readHeader (chunkHeaderBytes clen ulen ++ r) = .ok (clen, r) := by
  unfold readHeader chunkHeaderBytes
  simp only [List.append_assoc]
  rw [bind_readI64_enc _ _ _ (by norm_num) (by norm_num)]
  rw [bind_readI64_enc _ _ _ (by norm_num) (by norm_num)]
  rw [bind_readI64_enc _ _ _ (by omega) (by exact_mod_cast hc)]
  rw [bind_readI64_enc _ _ _ (by omega) (by exact_mod_cast hu)]
  rw [bind_readI64_enc _ _ _ (by omega) (by exact_mod_cast hc)]
  rw [bind_readI64_enc _ _ _ (by omega) (by exact_mod_cast hu)]
  rw [if_neg (by omega)]
  simp

/-!
### Chunk-boundary behaviour of the reader
-/

/-- A read from a session that still holds at least `b` bytes surfaces exactly
`b` bytes and does not touch the upstream. -/
theorem chunkRead_more (inflate : List Nat → List Nat) (b : Nat) (up rem : List Nat)
    (h : b ≤ rem.length) :
    chunkRead inflate b ⟨up, some rem⟩ = .ok (rem.take b, ⟨up, some (rem.drop b)⟩) := by
  simp only [chunkRead]
  rw [if_neg (by simp only [List.length_take]; omega)]

/-- End of chunk with a truncated upstream (fewer than 48 bytes left): the
in-flight read returns the bytes it got and the session slot is emptied. -/
theorem chunkRead_boundary_eof (inflate : List Nat → List Nat) (b : Nat) (up rem : List Nat)
    (hrem : rem.length < b) (hup : up.length < 48) :
    chunkRead inflate b ⟨up, some rem⟩ = .ok (rem, ⟨up, none⟩) := by
  have htake : rem.take b = rem := List.take_of_length_le (by omega)
  simp only [chunkRead, htake]
  rw [if_pos hrem, readHeader_eof up hup]
  simp

/-- End of chunk with a further serialised chunk on the upstream: the next
session opens over that chunk's full inflated contents (no 4-byte skip), and a
read that got zero bytes is reissued on it. -/
theorem chunkRead_boundary_next (inflate : List Nat → List Nat) (b : Nat)
    (rem c rest : List Nat) (hrem : rem.length < b)
    (hc : c.length < 2 ^ 63) (hic : (inflate c).length < 2 ^ 63) :
    chunkRead inflate b
        ⟨chunkHeaderBytes c.length (inflate c).length ++ (c ++ rest), some rem⟩ =
      if rem.length = 0 then
        .ok ((inflate c).take b, ⟨rest, some ((inflate c).drop b)⟩)
      else .ok (rem, ⟨rest, some (inflate c)⟩) := by
  have htake : rem.take b = rem := List.take_of_length_le (by omega)
  simp only [chunkRead, htake]
  rw [if_pos hrem, readHeader_chunk c.length (inflate c).length (c ++ rest) hc hic]
  simp only [List.take_left, List.drop_left]

/-- Total inflated length of a list of chunks. -/
def inflLenSum (inflate : List Nat → List Nat) (cs : List (List Nat)) : Nat :=
  (cs.map (fun c => (inflate c).length)).sum

/-- Concatenation of the full inflated contents of a list of chunks. -/
def flatInfl (inflate : List Nat → List Nat) (cs : List (List Nat)) : List Nat :=
  (cs.map inflate).flatten

/-- Bounds needed on every chunk: nonempty inflated contents (so that the
reissued read after a chunk switch cannot spuriously signal end-of-stream) and
lengths representable as `i64`. -/
def GoodChunks (inflate : List Nat → List Nat) (cs : List (List Nat)) : Prop :=
  ∀ c ∈ cs, inflate c ≠ [] ∧ c.length < 2 ^ 63 ∧ (inflate c).length < 2 ^ 63

/-- Invariant of the consumer loop: from a state whose upstream is a
serialised chunk list and whose session holds `rem`, reading to end-of-stream
yields `rem` followed by the full inflated contents of every remaining chunk.
-/
theorem readToEnd_invariant (inflate : List Nat → List Nat) (b : Nat) (hb : 0 < b) :
    ∀ fuel (cs : List (List Nat)) (rem : List Nat),
      GoodChunks inflate cs →
      rem.length + inflLenSum inflate cs + cs.length + 1 ≤ fuel →
      readToEnd inflate b fuel ⟨serializeChunks inflate cs, some rem⟩ =
        .ok (rem ++ flatInfl inflate cs) := by
  intro fuel
  induction fuel with
  | zero => intro cs rem _ hm; omega
  | succ fuel ih =>
    intro cs rem hgood hm
    by_cases hrem : b ≤ rem.length
    · -- still inside the current chunk
      have hne : rem.take b ≠ [] := by
        cases rem with
        | nil => simp at hrem; omega
        | cons a t => cases b with
          | zero => omega
          | succ m => simp
      rw [readToEnd, chunkRead_more inflate b _ rem hrem]
      simp only [bind, Except.bind, List.isEmpty_eq_true]
      rw [if_neg hne]
      rw [ih cs (rem.drop b) hgood (by simp only [List.length_drop]; omega)]
      simp [← List.append_assoc, List.take_append_drop]
    · push_neg at hrem
      cases cs with
      | nil =>
        -- no further chunk: header read hits end of file
        rw [readToEnd, chunkRead_boundary_eof inflate b _ rem hrem (by simp [serializeChunks])]
        simp only [bind, Except.bind, List.isEmpty_eq_true]
        by_cases hnil : rem = []
        · rw [if_pos hnil]
          simp [hnil, flatInfl]
        · rw [if_neg hnil]
          have hlen : 1 ≤ rem.length := by
            cases rem with
            | nil => exact absurd rfl hnil
            | cons _ _ => simp
          obtain ⟨f, rfl⟩ : ∃ f, fuel = f + 1 := ⟨fuel - 1, by omega⟩
          rw [readToEnd]
          simp [chunkRead, flatInfl, bind, Except.bind]
      | cons c cs' =>
        obtain ⟨hcne, hclen, hiclen⟩ := hgood c (by simp)
        have hgood' : GoodChunks inflate cs' := fun x hx => hgood x (by simp [hx])
        rw [readToEnd]
        rw [show serializeChunks inflate (c :: cs') =
          chunkHeaderBytes c.length (inflate c).length ++ (c ++ serializeChunks inflate cs')
          from by simp [serializeChunks]]
        rw [chunkRead_boundary_next inflate b rem c _ hrem hclen hiclen]
        have hmsum : inflLenSum inflate (c :: cs') =
            (inflate c).length + inflLenSum inflate cs' := by simp [inflLenSum]
        by_cases hz : rem.length = 0
        · rw [if_pos hz]
          simp only [bind, Except.bind, List.isEmpty_eq_true]
          have htne : (inflate c).take b ≠ [] := by
            cases hic : inflate c with
            | nil => exact absurd hic hcne
            | cons a t => cases b with
              | zero => omega
              | succ m => simp
          rw [if_neg htne]
          rw [ih cs' ((inflate c).drop b) hgood'
            (by simp only [List.length_drop]; simp [hmsum] at hm; omega)]
          have hz' : rem = [] := List.eq_nil_of_length_eq_zero hz
          simp [hz', flatInfl, ← List.append_assoc, List.take_append_drop]
        · rw [if_neg hz]
          simp only [bind, Except.bind, List.isEmpty_eq_true]
          rw [if_neg (by intro hcon; rw [hcon] at hz; simp at hz)]
          rw [ih cs' (inflate c) hgood' (by simp [hmsum] at hm; omega)]
          simp [flatInfl]

/-!
### Codec round-trips
-/

theorem utf8Decode_encodeChar (c : Nat) (h : ValidScalar c) (t : List Nat) :
    utf8Decode (utf8EncodeChar c ++ t) = c :: utf8Decode t := by
  obtain ⟨hlt, hns⟩ := h
  have hcont : ∀ x : Nat, x < 64 → isCont (0x80 + x) = true := by
    intro x hx; simp only [isCont, decide_eq_true_eq]; omega
  by_cases h1 : c < 0x80
  · simp only [utf8EncodeChar, if_pos h1, List.cons_append, List.nil_append]
    conv_lhs => rw [utf8Decode.eq_def]
    simp only []
    rw [if_pos h1]
  · by_cases h2 : c < 0x800
    · simp only [utf8EncodeChar, if_neg h1, if_pos h2, List.cons_append, List.nil_append]
      conv_lhs => rw [utf8Decode.eq_def]
      simp only []
      rw [if_neg (by omega), if_neg (by omega)]
      rw [if_pos (by omega), if_pos (hcont _ (by omega))]
      have : (0xC0 + c / 64 - 0xC0) * 64 + (0x80 + c % 64 - 0x80) = c := by omega
      rw [this]
    · by_cases h3 : c < 0x10000
      · simp only [utf8EncodeChar, if_neg h1, if_neg h2, if_pos h3, List.cons_append,
          List.nil_append]
        conv_lhs => rw [utf8Decode.eq_def]
        simp only []
        rw [if_neg (by omega), if_neg (by omega)]
        rw [if_neg (by omega), if_pos (by omega)]
        rw [if_pos (by
          refine ⟨hcont _ (by omega), ?_, ?_⟩
          · intro he; omega
          · intro he; omega)]
        rw [if_pos (hcont _ (by omega))]
        have : (0xE0 + c / 4096 - 0xE0) * 4096 + (0x80 + c / 64 % 64 - 0x80) * 64 +
            (0x80 + c % 64 - 0x80) = c := by omega
        rw [this]
      · simp only [utf8EncodeChar, if_neg h1, if_neg h2, if_neg h3, List.cons_append,
          List.nil_append]
        conv_lhs => rw [utf8Decode.eq_def]
        simp only []
        rw [if_neg (by omega), if_neg (by omega)]
        rw [if_neg (by omega), if_neg (by omega), if_pos (by omega)]
        rw [if_pos (by
          refine ⟨hcont _ (by omega), ?_, ?_⟩
          · intro he; omega
          · intro he; omega)]
        rw [if_pos (hcont _ (by omega))]
        rw [if_pos (hcont _ (by omega))]
        have : (0xF0 + c / 262144 - 0xF0) * 262144 + (0x80 + c / 4096 % 64 - 0x80) * 4096 +
            (0x80 + c / 64 % 64 - 0x80) * 64 + (0x80 + c % 64 - 0x80) = c := by omega
        rw [this]

theorem utf8Decode_utf8Encode (t : List Nat) (h : ∀ c ∈ t, ValidScalar c) :
    utf8Decode (utf8Encode t) = t := by
  induction t with
  | nil => rfl
  | cons c rest ih =>
    have : utf8Encode (c :: rest) = utf8EncodeChar c ++ utf8Encode rest := by
      simp [utf8Encode]
    rw [this, utf8Decode_encodeChar c (h c (by simp)) (utf8Encode rest),
      ih (fun x hx => h x (by simp [hx]))]

theorem utf16Decode_encodeChar (c : Nat) (h : ValidScalar c) (t : List Nat) :
    utf16Decode (utf16EncodeChar c ++ t) = c :: utf16Decode t := by
  obtain ⟨hlt, hns⟩ := h
  by_cases h1 : c < 0x10000
  · simp only [utf16EncodeChar, if_pos h1, List.cons_append, List.nil_append]
    conv_lhs => rw [utf16Decode.eq_def]
    simp only []
    rw [if_pos (by omega)]
  · simp only [utf16EncodeChar, if_neg h1, List.cons_append, List.nil_append]
    conv_lhs => rw [utf16Decode.eq_def]
    simp only []
    rw [if_neg (by omega), if_pos (by omega), if_pos (by omega)]
    have : 0x10000 + (0xD800 + (c - 0x10000) / 0x400 - 0xD800) * 0x400 +
        (0xDC00 + (c - 0x10000) % 0x400 - 0xDC00) = c := by omega
    rw [this]

theorem utf16Decode_utf16Encode (t : List Nat) (h : ∀ c ∈ t, ValidScalar c) :
    utf16Decode (utf16Encode t) = t := by
  induction t with
  | nil => rfl
  | cons c rest ih =>
    have : utf16Encode (c :: rest) = utf16EncodeChar c ++ utf16Encode rest := by
      simp [utf16Encode]
    rw [this, utf16Decode_encodeChar c (h c (by simp)) (utf16Encode rest),
      ih (fun x hx => h x (by simp [hx]))]

theorem utf16EncodeChar_lt (c : Nat) (h : ValidScalar c) :
    ∀ u ∈ utf16EncodeChar c, u < 2 ^ 16 := by
  obtain ⟨hlt, _⟩ := h
  intro u hu
  by_cases h1 : c < 0x10000
  · rw [utf16EncodeChar, if_pos h1] at hu
    simp at hu
    omega
  · rw [utf16EncodeChar, if_neg h1] at hu
    simp at hu
    rcases hu with h' | h' <;> omega

theorem utf16Encode_lt (t : List Nat) (h : ∀ c ∈ t, ValidScalar c) :
    ∀ u ∈ utf16Encode t, u < 2 ^ 16 := by
  intro u hu
  simp only [utf16Encode, List.mem_flatten, List.mem_map] at hu
  obtain ⟨l, ⟨c, hc, rfl⟩, hul⟩ := hu
  exact utf16EncodeChar_lt c (h c hc) u hul

theorem bytesToU16_u16sToBytes (us : List Nat) (h : ∀ u ∈ us, u < 2 ^ 16) :
    bytesToU16 (u16sToBytes us) = us := by
  induction us with
  | nil => rfl
  | cons u rest ih =>
    have hu : u < 2 ^ 16 := h u (by simp)
    simp only [u16sToBytes, bytesToU16]
    rw [ih (fun x hx => h x (by simp [hx]))]
    congr 1
    omega

theorem u16sToBytes_length (us : List Nat) : (u16sToBytes us).length = 2 * us.length := by
  induction us with
  | nil => rfl
  | cons u rest ih => simp [u16sToBytes, ih]; omega

/-!
### Behaviour of `read_string`
-/

theorem bind_readI32_enc {α : Type} (v : Int) (r : List Nat)
    (f : Int × List Nat → Except RsError α) (h1 : -(2 ^ 31) ≤ v) (h2 : v < 2 ^ 31) :
    (readI32 (i32ToLE v ++ r) >>= f) = f (v, r) := by
  rw [readI32_i32ToLE v r h1 h2]; rfl

/-- Decoding of the UTF-8 §6 framing: `L = byte-length + 1`, payload, one NUL
byte; the payload and the NUL are both consumed and the payload is decoded
lossily. -/
theorem readString_utf8_enc (t : List Nat) (hv : ∀ c ∈ t, ValidScalar c)
    (extra : List Nat) (hfit : (utf8Encode t).length + 1 < 2 ^ 31) :
    readString (i32ToLE ((utf8Encode t).length + 1) ++ (utf8Encode t ++ ([0] ++ extra))) =
      .ok (t, extra) := by
  unfold readString
  rw [bind_readI32_enc (((utf8Encode t).length : Int) + 1) _ _ (by omega) (by omega)]
  simp only []
  rw [if_neg (by omega)]
  rw [takeExact_append_of_len _ _ _ (by omega)]
  simp only [bind, Except.bind]
  rw [if_pos (by omega)]
  rw [takeExact_append_of_len 1 [0] extra (by simp)]
  rw [utf8Decode_utf8Encode t hv]

/-- Decoding of the empty §6 framing: `L = 0`, no further bytes consumed. -/
theorem readString_empty_enc (extra : List Nat) :
    readString (i32ToLE 0 ++ extra) = .ok ([], extra) := by
  unfold readString
  rw [bind_readI32_enc 0 _ _ (by omega) (by omega)]
  simp [takeExact, bind, Except.bind, utf8Decode]

/-- Decoding of the UTF-16 §6 framing: `L = -(2·codeunits + 2)`, little-endian
code units, two NUL bytes; the code units are consumed and decoded lossily.
The 2-byte NUL terminator is left unconsumed (it remains at the head of the
returned stream). -/
theorem readString_utf16_enc (t : List Nat) (hv : ∀ c ∈ t, ValidScalar c)
    (extra : List Nat) (hfit : 2 * (utf16Encode t).length + 2 < 2 ^ 31) :
    readString (i32ToLE (-(2 * ((utf16Encode t).length : Int) + 2)) ++
        (u16sToBytes (utf16Encode t) ++ ([0, 0] ++ extra))) =
      .ok (t, [0, 0] ++ extra) := by
  unfold readString
  rw [bind_readI32_enc (-(2 * ((utf16Encode t).length : Int) + 2)) _ _ (by omega) (by omega)]
  simp only []
  rw [if_pos (by omega)]
  have hneg : negWrap32 (-(2 * ((utf16Encode t).length : Int) + 2)) =
      2 * ((utf16Encode t).length : Int) + 2 := by
    unfold negWrap32
    rw [if_neg (by omega)]
    ring
  rw [hneg]
  have hcast : i32AsUsize (2 * ((utf16Encode t).length : Int) + 2) =
      2 * (utf16Encode t).length + 2 := by
    unfold i32AsUsize
    omega
  rw [hcast]
  have hbuf : (2 * (utf16Encode t).length + 2 - 1) / 2 = (utf16Encode t).length := by omega
  rw [hbuf]
  rw [if_neg (by omega)]
  rw [takeExact_append_of_len _ _ _ (u16sToBytes_length (utf16Encode t))]
  simp only [bind, Except.bind]
  rw [bytesToU16_u16sToBytes _ (utf16Encode_lt t hv), utf16Decode_utf16Encode t hv]

/-- Byte accounting of the negative-`L` branch (for `L ≠ i32::MIN`): exactly
`2·⌊(-L-1)/2⌋` payload bytes are consumed after the prefix, and whatever
follows them — in particular a 2-byte NUL terminator covered by the on-disk
length convention — is left on the stream. -/
theorem readString_neg_consumption (L : Int) (rest : List Nat)
    (h1 : -(2 ^ 31) < L) (h2 : L < 0)
    (h3 : 2 * (((-L).toNat - 1) / 2) ≤ rest.length) :
    readString (i32ToLE L ++ rest) =
      .ok (utf16Decode (bytesToU16 (rest.take (2 * (((-L).toNat - 1) / 2)))),
           rest.drop (2 * (((-L).toNat - 1) / 2))) := by
  unfold readString
  rw [bind_readI32_enc L _ _ (by omega) (by omega)]
  simp only []
  rw [if_pos h2]
  have hneg : negWrap32 L = -L := by
    unfold negWrap32
    rw [if_neg (by omega)]
  rw [hneg]
  have hcast : i32AsUsize (-L) = (-L).toNat := by
    unfold i32AsUsize
    omega
  rw [hcast]
  rw [if_neg (by omega)]
  rw [takeExact, if_pos (by omega)]
  simp only [bind, Except.bind]

/-- Byte accounting of the positive-`L` branch: `L - 1` payload bytes and the
single trailing NUL terminator are consumed, `4 + L` bytes in total. -/
theorem readString_pos_consumption (L : Int) (rest : List Nat)
    (h1 : 0 < L) (h2 : L < 2 ^ 31) (h3 : L.toNat ≤ rest.length) :
    readString (i32ToLE L ++ rest) =
      .ok (utf8Decode (rest.take (L.toNat - 1)), rest.drop L.toNat) := by
  unfold readString
  rw [bind_readI32_enc L _ _ (by omega) (by omega)]
  simp only []
  rw [if_neg (by omega)]
  rw [takeExact, if_pos (by omega)]
  simp only [bind, Except.bind]
  rw [if_pos h1]
  rw [takeExact, if_pos (by simp only [List.length_drop]; omega)]
  simp only [bind, Except.bind]
  rw [List.drop_drop]
  have hdd : L.toNat - 1 + 1 = L.toNat := by omega
  rw [hdd]

/-!
### Behaviour of `WorldProperties::new`
-/

/-- The value associated with the last occurrence of key `k` in a pair list. -/
def lookupLast (k : List Char) : List (List Char × List Char) → Option (List Char)
  | [] => none
  | p :: rest =>
    match lookupLast k rest with
    | some v => some v
    | none => if p.1 = k then some p.2 else none

theorem find?_filter_ne (m : List (List Char × List Char)) (key k : List Char)
    (hne : ¬ k = key) :
    ((m.filter fun q => ¬ q.1 = key).find? fun q => q.1 = k) =
      m.find? fun q => q.1 = k := by
  rw [List.find?_filter]
  congr 1
  funext a
  by_cases ha : a.1 = k
  · have hak : ¬ a.1 = key := fun hc => hne (by rw [← ha, hc])
    simp [ha, hak, hne]
  · simp [ha]

/-- The `HashMap` built by the `collect` keeps, for each key, the value of the
last pair inserted with that key. -/
theorem buildMap_find (pairs : List (List Char × List Char)) (k : List Char) :
    ∀ acc : List (List Char × List Char),
      (((pairs.foldl hmInsert acc).find? fun q => q.1 = k).map Prod.snd) =
        (match lookupLast k pairs with
         | some v => some v
         | none => ((acc.find? fun q => q.1 = k).map Prod.snd)) := by
  induction pairs with
  | nil => intro acc; rfl
  | cons p rest ih =>
    intro acc
    rw [List.foldl_cons, ih (hmInsert acc p)]
    cases hlk : lookupLast k rest with
    | some v => simp [lookupLast, hlk]
    | none =>
      simp only [lookupLast, hlk]
      simp only [hmInsert, List.find?_cons]
      by_cases hpk : p.1 = k
      · rw [if_pos hpk]
        have hd : decide (p.1 = k) = true := by simp [hpk]
        rw [hd]
        rfl
      · rw [if_neg hpk]
        have hd : decide (p.1 = k) = false := by simp [hpk]
        rw [hd]
        simp only []
        rw [find?_filter_ne acc p.1 k (fun hc => hpk hc.symm)]

theorem splitOnce_key_val (sep : Char) (k v : List Char) (hk : sep ∉ k) :
    splitOnce sep (k ++ sep :: v) = some (k, v) := by
  induction k with
  | nil => simp [splitOnce]
  | cons x k' ih =>
    have hx : ¬ x = sep := by intro hc; exact hk (by simp [hc])
    simp only [List.cons_append, splitOnce, List.append_eq]
    rw [if_neg hx, ih (fun hc => hk (by simp [hc]))]
    rfl

theorem splitOnce_none (sep : Char) (l : List Char) (h : sep ∉ l) :
    splitOnce sep l = none := by
  induction l with
  | nil => rfl
  | cons x l' ih =>
    have hx : ¬ x = sep := by intro hc; exact h (by simp [hc])
    simp only [splitOnce]
    rw [if_neg hx, ih (fun hc => h (by simp [hc]))]
    rfl

theorem splitOnce_mem_isSome (sep : Char) (l : List Char) (h : sep ∈ l) :
    (splitOnce sep l).isSome = true := by
  induction l with
  | nil => simp at h
  | cons x l' ih =>
    simp only [splitOnce]
    by_cases hx : x = sep
    · rw [if_pos hx]; rfl
    · rw [if_neg hx]
      have hmem : sep ∈ l' := by
        rcases List.mem_cons.mp h with hc | hc
        · exact absurd hc.symm hx
        · exact hc
      cases hs : splitOnce sep l' with
      | none => rw [hs] at ih; simp [ih hmem] at *
      | some p => simp [hs]

/-- When every segment contains the separator, the `collect` succeeds and
yields the per-segment splits, in order. -/
theorem splitSegments_ok (segs : List (List Char)) (h : ∀ seg ∈ segs, '=' ∈ seg) :
    splitSegments segs = .ok (segs.map fun seg => (splitOnce '=' seg).getD ([], [])) := by
  induction segs with
  | nil => rfl
  | cons seg rest ih =>
    have hs := splitOnce_mem_isSome '=' seg (h seg (by simp))
    cases hsp : splitOnce '=' seg with
    | none => rw [hsp] at hs; simp at hs
    | some p =>
      simp only [splitSegments, hsp, ih (fun x hx => h x (by simp [hx])), List.map_cons]
      simp [bind, Except.bind]

/-- A segment without the separator makes the `collect` fail. -/
theorem splitSegments_err (segs : List (List Char)) (seg : List Char)
    (hmem : seg ∈ segs) (hno : '=' ∉ seg) :
    ∃ m, splitSegments segs = .error (.err m) := by
  induction segs with
  | nil => simp at hmem
  | cons hd rest ih =>
    rcases List.mem_cons.mp hmem with hc | hc
    · subst hc
      refine ⟨"invalid property: " ++ String.mk seg, ?_⟩
      simp [splitSegments, splitOnce_none '=' seg hno]
    · cases hsp : splitOnce '=' hd with
      | none => exact ⟨"invalid property: " ++ String.mk hd, by simp [splitSegments, hsp]⟩
      | some p =>
        obtain ⟨m, hm⟩ := ih hc
        refine ⟨m, ?_⟩
        simp [splitSegments, hsp, hm, bind, Except.bind]

/-- Success of `WorldProperties::new`, with each field taken from the last
occurrence of its key among the split segments. -/
theorem worldProperties_new_ok (s : List Char) (pairs : List (List Char × List Char))
    (v1 v2 v3 : List Char) (vis : SessionVisiblity)
    (hsplit : splitSegments ((rsSplit '?' s).drop 1) = .ok pairs)
    (h1 : lookupLast "startloc".data pairs = some v1)
    (h2 : lookupLast "sessionName".data pairs = some v2)
    (h3 : lookupLast "Visibility".data pairs = some v3)
    (hvis : SessionVisiblity.parse v3 = .ok vis) :
    WorldProperties.new s = .ok ⟨v1, v2, vis⟩ := by
  unfold WorldProperties.new
  rw [hsplit]
  simp only [bind, Except.bind, hmRemove, buildMap]
  rw [buildMap_find pairs _ [], h1]
  simp only []
  rw [find?_filter_ne _ _ _ (by decide), buildMap_find pairs _ [], h2]
  simp only []
  rw [find?_filter_ne _ _ _ (by decide), find?_filter_ne _ _ _ (by decide),
    buildMap_find pairs _ [], h3]
  simp only []
  rw [hvis]

/-- `?`-joined concatenation of segments (the shape of a world-properties
text: one leading `?` before every segment). -/
def qJoin : List (List Char) → List Char
  | [] => []
  | seg :: rest => '?' :: (seg ++ qJoin rest)

theorem rsSplit_no_sep (sep : Char) (a : List Char) (ha : sep ∉ a) :
    rsSplit sep a = [a] := by
  induction a with
  | nil => rfl
  | cons x a' ih =>
    have hx : ¬ x = sep := by intro hc; exact ha (by simp [hc])
    simp only [rsSplit]
    rw [if_neg hx, ih (fun hc => ha (by simp [hc]))]

theorem rsSplit_append (sep : Char) (a b : List Char) (ha : sep ∉ a) :
    rsSplit sep (a ++ sep :: b) = a :: rsSplit sep b := by
  induction a with
  | nil =>
    simp only [List.nil_append, rsSplit]
    rw [if_pos trivial]
  | cons x a' ih =>
    have hx : ¬ x = sep := by intro hc; exact ha (by simp [hc])
    simp only [List.cons_append, rsSplit, List.append_eq]
    rw [if_neg hx, ih (fun hc => ha (by simp [hc]))]

theorem rsSplit_qJoin (segs : List (List Char)) (hall : ∀ seg ∈ segs, '?' ∉ seg) :
    rsSplit '?' (qJoin segs) = [] :: segs := by
  induction segs with
  | nil => rfl
  | cons seg rest ih =>
    simp only [qJoin, rsSplit]
    rw [if_pos trivial]
    cases rest with
    | nil =>
      simp only [qJoin, List.append_nil]
      rw [rsSplit_no_sep '?' seg (hall seg (by simp))]
    | cons r rs =>
      have hy := ih (fun x hx => hall x (by simp at hx ⊢; tauto))
      simp only [qJoin] at hy
      rw [rsSplit] at hy
      rw [if_pos rfl] at hy
      simp only [qJoin]
      rw [rsSplit_append '?' seg _ (hall seg (by simp))]
      rw [List.cons.injEq] at hy
      rw [hy.2]

/-!
### Relating parsed header fields to their raw values
-/

/-- A successful header parse agrees with the raw-field probe: `play_time` is
exactly the raw `i32` read at its position (no sign restriction), and
`is_modded_save` is the strict comparison `0 < raw` of the raw `i32` at its
position. -/
theorem parseHeader_probe (s : List Nat) (sf : SaveFile) (rest : List Nat)
    (h : SaveFile.parseHeader s = .ok (sf, rest)) :
    ∃ im : Int, headerRawProbe s = .ok (sf.play_time, im) ∧
      sf.is_modded_save = decide (0 < im) := by
  unfold SaveFile.parseHeader at h
  unfold headerRawProbe
  simp only [bind, Except.bind] at h ⊢
  cases h1 : readI32 s with
  | error e => rw [h1] at h; simp at h
  | ok p1 =>
  obtain ⟨v1, s1⟩ := p1
  rw [h1] at h
  simp only [] at h ⊢
  cases h2 : readI32 s1 with
  | error e => rw [h2] at h; simp at h
  | ok p2 =>
  obtain ⟨v2, s2⟩ := p2
  rw [h2] at h
  simp only [] at h ⊢
  cases h3 : readI32 s2 with
  | error e => rw [h3] at h; simp at h
  | ok p3 =>
  obtain ⟨v3, s3⟩ := p3
  rw [h3] at h
  simp only [] at h ⊢
  cases h4 : readString s3 with
  | error e => rw [h4] at h; simp at h
  | ok p4 =>
  obtain ⟨wt, s4⟩ := p4
  rw [h4] at h
  simp only [] at h ⊢
  cases h5 : readString s4 with
  | error e => rw [h5] at h; simp at h
  | ok p5 =>
  obtain ⟨wpt, s5⟩ := p5
  rw [h5] at h
  simp only [] at h ⊢
  cases h6 : WorldProperties.new (toChars wpt) with
  | error e => rw [h6] at h; simp at h
  | ok wp =>
  rw [h6] at h
  simp only [] at h
  cases h7 : readString s5 with
  | error e => rw [h7] at h; simp at h
  | ok p7 =>
  obtain ⟨sn, s6⟩ := p7
  rw [h7] at h
  simp only [] at h ⊢
  cases h8 : readI32 s6 with
  | error e => rw [h8] at h; simp at h
  | ok p8 =>
  obtain ⟨pt, s7⟩ := p8
  rw [h8] at h
  simp only [] at h ⊢
  cases h9 : readI64 s7 with
  | error e => rw [h9] at h; simp at h
  | ok p9 =>
  obtain ⟨sd, s8⟩ := p9
  rw [h9] at h
  simp only [] at h ⊢
  cases h10 : readU8 s8 with
  | error e => rw [h10] at h; simp at h
  | ok p10 =>
  obtain ⟨vr, s9⟩ := p10
  rw [h10] at h
  simp only [] at h ⊢
  cases h11 : SessionVisiblity.from_u8 vr with
  | error e => rw [h11] at h; simp at h
  | ok vis =>
  rw [h11] at h
  simp only [] at h
  cases h12 : readI32 s9 with
  | error e => rw [h12] at h; simp at h
  | ok p12 =>
  obtain ⟨eov, s10⟩ := p12
  rw [h12] at h
  simp only [] at h ⊢
  cases h13 : readString s10 with
  | error e => rw [h13] at h; simp at h
  | ok p13 =>
  obtain ⟨mmd, s11⟩ := p13
  rw [h13] at h
  simp only [] at h ⊢
  cases h14 : readI32 s11 with
  | error e => rw [h14] at h; simp at h
  | ok p14 =>
  obtain ⟨im, s12⟩ := p14
  rw [h14] at h
  simp only [] at h ⊢
  simp only [Except.ok.injEq, Prod.mk.injEq] at h
  obtain ⟨hsf, hrest⟩ := h
  subst hsf
  exact ⟨im, rfl, rfl⟩

/-!
### Object-count accounting
-/

/-- The object loop yields exactly as many objects as it was asked to parse. -/
theorem parseObjects_length (inflate : List Nat → List Nat) (n : Nat) :
    ∀ (st : ChunkedState) (os : List SaveObject) (st' : ChunkedState),
      parseObjects inflate n st = .ok (os, st') → os.length = n := by
  induction n with
  | zero =>
    intro st os st' h
    simp only [parseObjects, Except.ok.injEq, Prod.mk.injEq] at h
    rw [← h.1]
    rfl
  | succ n ih =>
    intro st os st' h
    simp only [parseObjects, bind, Except.bind] at h
    cases ho : SaveObject.parse inflate st with
    | error e => rw [ho] at h; simp at h
    | ok p =>
    obtain ⟨o, st1⟩ := p
    rw [ho] at h
    simp only [] at h
    cases hos : parseObjects inflate n st1 with
    | error e => rw [hos] at h; simp at h
    | ok q =>
    obtain ⟨os1, st2⟩ := q
    rw [hos] at h
    simp only [Except.ok.injEq, Prod.mk.injEq] at h
    rw [← h.1]
    simp [ih st1 os1 st2 hos]

/-- A successful full parse returns exactly the declared number of objects:
re-reading the `u32` at the start of the decompressed body yields the length
of the parsed object list. -/
theorem parse_bodyCount (inflate : List Nat → List Nat) (s : List Nat) (sf : SaveFile)
    (h : SaveFile.parse inflate s = .ok sf) :
    bodyCountOf inflate s = .ok sf.save_objects.length := by
  unfold SaveFile.parse at h
  unfold bodyCountOf
  simp only [bind, Except.bind] at h ⊢
  cases h1 : SaveFile.parseHeader s with
  | error e => rw [h1] at h; simp at h
  | ok p1 =>
  obtain ⟨sf0, s1⟩ := p1
  rw [h1] at h
  simp only [] at h ⊢
  cases h2 : ChunkedZLibReader.new inflate s1 with
  | error e => rw [h2] at h; simp at h
  | ok st =>
  rw [h2] at h
  simp only [] at h ⊢
  cases h3 : readU32C inflate st with
  | error e => rw [h3] at h; simp at h
  | ok p3 =>
  obtain ⟨cnt, st1⟩ := p3
  rw [h3] at h
  simp only [] at h ⊢
  cases h4 : parseObjects inflate cnt st1 with
  | error e => rw [h4] at h; simp at h
  | ok p4 =>
  obtain ⟨objs, st2⟩ := p4
  rw [h4] at h
  simp only [Except.ok.injEq] at h
  rw [← h]
  simp only []
  rw [parseObjects_length inflate cnt st1 objs st2 h4]

/-!
### Small computation helpers for key lookup
-/

theorem lookupLast_cons_ne (k k' v : List Char) (rest : List (List Char × List Char))
    (h : ¬ k' = k) :
    lookupLast k ((k', v) :: rest) = lookupLast k rest := by
  simp only [lookupLast]
  cases hl : lookupLast k rest with
  | some w => rfl
  | none => simp [h]

theorem lookupLast_cons_of_some (k : List Char) (p : List Char × List Char)
    (rest : List (List Char × List Char)) (w : List Char)
    (h : lookupLast k rest = some w) :
    lookupLast k (p :: rest) = some w := by
  simp [lookupLast, h]

theorem lookupLast_cons_found (k v : List Char) (rest : List (List Char × List Char))
    (h : lookupLast k rest = none) :
    lookupLast k ((k, v) :: rest) = some v := by
  simp [lookupLast, h]

theorem splitSegments_cons_ok (seg : List Char) (rest : List (List Char))
    (p : List Char × List Char) (h : splitOnce '=' seg = some p)
    (ps : List (List Char × List Char)) (hr : splitSegments rest = .ok ps) :
    splitSegments (seg :: rest) = .ok (p :: ps) := by
  simp [splitSegments, h, hr, bind, Except.bind]

/-- The per-segment key/value pairs of a world-properties text, in order
(used to state which occurrence of a key each parsed field comes from). -/
def segPairs (s : List Char) : List (List Char × List Char) :=
  ((rsSplit '?' s).drop 1).map fun seg => (splitOnce '=' seg).getD ([], [])

/-!
## Claims
-/

/-- C1 as stated is false: in a compressed body of two chunks the second
chunk's leading 4 inflated bytes are surfaced to the consumer, not consumed.
Reading to end of stream yields `[5, 6, 7, 8, 9, 10]` — the first chunk's
inflated contents minus its 4-byte prefix followed by the second chunk's full
inflated contents — which differs from the claimed concatenation with the
4-byte prefix removed from every chunk (`[5, 10]`). -/
theorem C1_chunk_concat_counterexample :
    (do
      let st ← ChunkedZLibReader.new inflTwo (serializeChunks inflTwo [[10], [20]])
      readToEnd inflTwo 3 20 st) = .ok [5, 6, 7, 8, 9, 10] ∧
    (Except.ok [5, 6, 7, 8, 9, 10] : Except RsError (List Nat)) ≠
      .ok ((inflTwo [10]).drop 4 ++ (inflTwo [20]).drop 4) := by
  constructor
  · decide
  · decide

/-- C1 (amended): only the initial chunk opened by `ChunkedZLibReader::new`
has its leading 4 inflated bytes consumed; every chunk opened inside `read`
surfaces its full inflated contents.  Reading until end-of-stream yields the
first chunk's inflated contents minus the 4-byte prefix followed by the full
inflated contents of all subsequent chunks (for any positive read-buffer
size, provided every subsequent chunk inflates to a nonempty sequence and
lengths fit in `i64`). -/
theorem C1_chunk_concat_amended (inflate : List Nat → List Nat) (b : Nat) (hb : 0 < b)
    (c : List Nat) (cs : List (List Nat)) (fuel : Nat)
    (hfirst : 4 ≤ (inflate c).length)
    (hgood : GoodChunks inflate (c :: cs))
    (hfuel : ((inflate c).length - 4) + inflLenSum inflate cs + cs.length + 1 ≤ fuel) :
    (do
      let st ← ChunkedZLibReader.new inflate (serializeChunks inflate (c :: cs))
      readToEnd inflate b fuel st) =
      .ok ((inflate c).drop 4 ++ flatInfl inflate cs) := by
  obtain ⟨hcne, hclen, hiclen⟩ := hgood c (by simp)
  have hnew : ChunkedZLibReader.new inflate (serializeChunks inflate (c :: cs)) =
      .ok ⟨serializeChunks inflate cs, some ((inflate c).drop 4)⟩ := by
    unfold ChunkedZLibReader.new
    rw [show serializeChunks inflate (c :: cs) =
      chunkHeaderBytes c.length (inflate c).length ++ (c ++ serializeChunks inflate cs) from by
      simp [serializeChunks]]
    rw [readHeader_chunk c.length (inflate c).length _ hclen hiclen]
    simp only [bind, Except.bind, List.take_left, List.drop_left]
    rw [if_neg (by omega)]
  rw [hnew]
  simp only [bind, Except.bind]
  rw [readToEnd_invariant inflate b hb fuel cs ((inflate c).drop 4)
    (fun x hx => hgood x (by simp [hx])) (by simp only [List.length_drop]; omega)]

theorem C1_chunk_concat_witness :
    (do
      let st ← ChunkedZLibReader.new inflTwo (serializeChunks inflTwo [[10], [20]])
      readToEnd inflTwo 3 20 st) =
      .ok ((inflTwo [10]).drop 4 ++ flatInfl inflTwo [[20]]) :=
  C1_chunk_concat_amended inflTwo 3 (by decide) [10] [[20]] 20 (by decide)
    (by intro x hx; fin_cases hx <;> refine ⟨by decide, by decide, by decide⟩) (by decide)

/-- C2: the claim is right and the code is wrong.  `read_string` computes
`(-length) as usize` and resizes a `Vec` to a size derived from the untrusted
prefix before any byte is read: for the 4-byte input `00 00 00 80`
(`L = -2147483648 = i32::MIN`) the negation overflows `i32` (a panic in debug
profile; in release it wraps and the subsequent `Vec<u16>` resize requests
about 2^64 bytes, a guaranteed capacity-overflow panic).  The same bytes at a
string position make `SaveFile::parse` panic as well, violating the
fuzz-robustness property. -/
theorem C2_read_string_panics :
    readString [0, 0, 0, 128] = .error .panic ∧
    SaveFile.parse exInfl
        ([8, 0, 0, 0] ++ [25, 0, 0, 0] ++ [0, 0, 0, 0] ++ [0, 0, 0, 128]) =
      .error .panic := by
  constructor
  · decide
  · decide

/-- C3 as stated is false: `SaveFile::parse` succeeds on an input whose
`play_time` field is `-1` (the `try_into` on line 55 is the infallible
`i32 → i64` conversion, so there is no NegativeDuration check), returning a
negative `play_time` duration. -/
theorem C3_negative_play_time_counterexample :
    Except.map SaveFile.play_time (SaveFile.parse exInfl exInput) = .ok (-1) := by
  decide

/-- C3 (amended): `parse` performs no sign check on `play_time`; the parsed
`play_time` duration in seconds is exactly the raw `i32` value read at its
position, negative values included. -/
theorem C3_play_time_raw_amended (s : List Nat)
    (h : (SaveFile.parseHeader s).isOk = true) :
    Except.map Prod.fst (headerRawProbe s) =
      Except.map (fun p => p.1.play_time) (SaveFile.parseHeader s) := by
  cases hp : SaveFile.parseHeader s with
  | error e => rw [hp] at h; simp [Except.isOk, Except.toBool] at h
  | ok p =>
    obtain ⟨sf, rest⟩ := p
    obtain ⟨im, hpr, _⟩ := parseHeader_probe s sf rest hp
    rw [hpr]
    rfl

theorem C3_play_time_raw_witness :
    Except.map Prod.fst (headerRawProbe exInput) =
      Except.map (fun p => p.1.play_time) (SaveFile.parseHeader exInput) :=
  C3_play_time_raw_amended exInput (by decide)

/-- C4 as stated is false: the raw `is_modded_save` field of `exInput` is
`-1` (nonzero), yet the parsed `is_modded_save` is `false`, because the code
maps the raw value through `> 0`, not `!= 0`. -/
theorem C4_is_modded_counterexample :
    Except.map Prod.snd (headerRawProbe exInput) = .ok (-1) ∧
    Except.map SaveFile.is_modded_save (SaveFile.parse exInfl exInput) = .ok false := by
  constructor
  · decide
  · decide

/-- C4 (amended): the `is_modded_save` boolean is true if and only if the raw
32-bit field read from the stream is strictly positive; any negative raw
value yields `false`. -/
theorem C4_is_modded_gt_zero_amended (s : List Nat)
    (h : (SaveFile.parseHeader s).isOk = true) :
    Except.map (fun p => p.1.is_modded_save) (SaveFile.parseHeader s) =
      Except.map (fun p => decide (0 < p.2)) (headerRawProbe s) := by
  cases hp : SaveFile.parseHeader s with
  | error e => rw [hp] at h; simp [Except.isOk, Except.toBool] at h
  | ok p =>
    obtain ⟨sf, rest⟩ := p
    obtain ⟨im, hpr, him⟩ := parseHeader_probe s sf rest hp
    rw [hpr]
    simp [Except.map, him]

theorem C4_is_modded_gt_zero_witness :
    Except.map (fun p => p.1.is_modded_save) (SaveFile.parseHeader exInput) =
      Except.map (fun p => decide (0 < p.2)) (headerRawProbe exInput) :=
  C4_is_modded_gt_zero_amended exInput (by decide)

/-- C5: for every text value and every §6 encoding choice — UTF-8 framing
(`L = byte-length + 1`, payload, NUL), empty framing (`L = 0`, no further
bytes), UTF-16LE framing (`L = -(2·codeunits + 2)`, code units, two NUL
bytes) — `read_string` on the encoded bytes returns exactly the original
text (lengths bounded so the prefix fits in `i32`). -/
theorem C5_string_round_trip (t : List Nat) (hv : ∀ c ∈ t, ValidScalar c)
    (extra : List Nat)
    (h8 : (utf8Encode t).length + 1 < 2 ^ 31)
    (h16 : 2 * (utf16Encode t).length + 2 < 2 ^ 31) :
    Except.map Prod.fst (readString (i32ToLE (((utf8Encode t).length : Int) + 1) ++
        (utf8Encode t ++ ([0] ++ extra)))) = .ok t ∧
    Except.map Prod.fst (readString (i32ToLE 0 ++ extra)) = .ok ([] : List Nat) ∧
    Except.map Prod.fst (readString (i32ToLE (-(2 * ((utf16Encode t).length : Int) + 2)) ++
        (u16sToBytes (utf16Encode t) ++ ([0, 0] ++ extra)))) = .ok t := by
  refine ⟨?_, ?_, ?_⟩
  · rw [readString_utf8_enc t hv extra h8]
    rfl
  · rw [readString_empty_enc extra]
    rfl
  · rw [readString_utf16_enc t hv extra (by omega)]
    rfl

theorem C5_string_round_trip_witness :
    Except.map Prod.fst (readString (i32ToLE (((utf8Encode [97, 98, 99]).length : Int) + 1) ++
        (utf8Encode [97, 98, 99] ++ ([0] ++ [7])))) = .ok [97, 98, 99] ∧
    Except.map Prod.fst (readString (i32ToLE 0 ++ [7])) = .ok ([] : List Nat) ∧
    Except.map Prod.fst
        (readString (i32ToLE (-(2 * ((utf16Encode [97, 98, 99]).length : Int) + 2)) ++
          (u16sToBytes (utf16Encode [97, 98, 99]) ++ ([0, 0] ++ [7])))) = .ok [97, 98, 99] :=
  C5_string_round_trip [97, 98, 99] (by decide) [7] (by decide) (by decide)

/-- C7: when the active chunk is exhausted (the session holds fewer bytes
than requested) and fewer than 48 upstream bytes remain — so the next
frame-header read fails with `UnexpectedEof` — the in-flight read returns
successfully with exactly the bytes it obtained from the prior chunk
(possibly zero) and empties the session slot; every read on an empty session
slot returns zero bytes and leaves the state unchanged. -/
theorem C7_header_eof_read (inflate : List Nat → List Nat) (b : Nat) (up rem : List Nat)
    (hrem : rem.length < b) (hup : up.length < 48) :
    chunkRead inflate b ⟨up, some rem⟩ = .ok (rem, ⟨up, none⟩) ∧
    ∀ st : ChunkedState, st.session = none → chunkRead inflate b st = .ok ([], st) := by
  refine ⟨chunkRead_boundary_eof inflate b up rem hrem hup, ?_⟩
  intro st hst
  cases st with
  | mk u ses =>
    simp only [] at hst
    subst hst
    rfl

theorem C7_header_eof_read_witness :
    chunkRead (fun _ => []) 2 ⟨[9, 9], some [5]⟩ = .ok ([5], ⟨[9, 9], none⟩) ∧
    chunkRead (fun _ => []) 2 ⟨[9, 9], none⟩ = .ok ([], ⟨[9, 9], none⟩) :=
  ⟨(C7_header_eof_read (fun _ => []) 2 [9, 9] [5] (by decide) (by decide)).1,
   (C7_header_eof_read (fun _ => []) 2 [9, 9] [5] (by decide) (by decide)).2
     ⟨[9, 9], none⟩ rfl⟩

/-- C8: on every successful parse the number of parsed objects equals the
`u32 world_object_count` read from the start of the decompressed body (the
objects are produced in stream order by the loop, and any object failure
aborts the whole parse — both structural in the `Except`-monadic loop). -/
theorem C8_object_count (inflate : List Nat → List Nat) (s : List Nat)
    (h : (SaveFile.parse inflate s).isOk = true) :
    Except.map (fun sf => sf.save_objects.length) (SaveFile.parse inflate s) =
      bodyCountOf inflate s := by
  cases hp : SaveFile.parse inflate s with
  | error e => rw [hp] at h; simp [Except.isOk, Except.toBool] at h
  | ok sf =>
    rw [parse_bodyCount inflate s sf hp]
    rfl

theorem C8_object_count_witness :
    Except.map (fun sf => sf.save_objects.length) (SaveFile.parse exInfl exInput) =
      bodyCountOf exInfl exInput :=
  C8_object_count exInfl exInput (by decide)

/-- C9 as stated is false at `L = i32::MIN = -2147483648` (a negative length
prefix): instead of consuming `4 + 2·⌊(-L-1)/2⌋` bytes and returning,
`read_string` panics (overflowing negation in debug profile; guaranteed
`Vec` capacity-overflow panic in release), whatever bytes follow. -/
theorem C9_negative_consumption_counterexample :
    readString ([0, 0, 0, 128] ++ [0, 0, 0, 0, 0, 0, 0, 0]) = .error .panic := by
  decide

/-- C9 (amended): for every negative prefix `L` other than `i32::MIN`, when
the source holds enough bytes `read_string` consumes exactly
`4 + 2·⌊(-L-1)/2⌋` bytes and leaves everything after the code units — in
particular the 2-byte NUL terminator covered by the on-disk convention
`|L| = payload + 2` — unconsumed; the `L > 0` branch instead consumes its
payload and the single trailing terminator byte, `4 + L` bytes in total. -/
theorem C9_consumption_amended (L : Int) (rest : List Nat) :
    (-(2 ^ 31) < L → L < 0 → 2 * (((-L).toNat - 1) / 2) ≤ rest.length →
      readString (i32ToLE L ++ rest) =
        .ok (utf16Decode (bytesToU16 (rest.take (2 * (((-L).toNat - 1) / 2)))),
             rest.drop (2 * (((-L).toNat - 1) / 2)))) ∧
    (0 < L → L < 2 ^ 31 → L.toNat ≤ rest.length →
      readString (i32ToLE L ++ rest) =
        .ok (utf8Decode (rest.take (L.toNat - 1)), rest.drop L.toNat)) :=
  ⟨fun h1 h2 h3 => readString_neg_consumption L rest h1 h2 h3,
   fun h1 h2 h3 => readString_pos_consumption L rest h1 h2 h3⟩

theorem C9_consumption_witness :
    readString (i32ToLE (-8) ++ [97, 0, 98, 0, 99, 0, 0, 0]) =
      .ok (utf16Decode (bytesToU16 ([97, 0, 98, 0, 99, 0, 0, 0].take 6)),
           [97, 0, 98, 0, 99, 0, 0, 0].drop 6) ∧
    readString (i32ToLE 4 ++ [97, 98, 99, 0, 55]) =
      .ok (utf8Decode ([97, 98, 99, 0, 55].take 3), [97, 98, 99, 0, 55].drop 4) :=
  ⟨(C9_consumption_amended (-8) [97, 0, 98, 0, 99, 0, 0, 0]).1
      (by decide) (by decide) (by decide),
   (C9_consumption_amended 4 [97, 98, 99, 0, 55]).2 (by decide) (by decide) (by decide)⟩

/-- C6 as stated is false: a trailing `?` creates an empty final segment, and
`"".split_once('=')` is `None`, so `WorldProperties::new` fails with the
malformed-property error even though every non-empty segment has `=` and all
three required keys are present with a valid Visibility token. -/
theorem C6_world_properties_counterexample :
    WorldProperties.new "?startloc=a?sessionName=b?Visibility=SV_Private?".data =
      .error (.err "invalid property: ") := by
  decide

/-- C6 (amended): world-properties parsing fails with the malformed-property
error when any segment after the first — empty segments included — lacks
`=`; when every segment after the first contains `=` and the keys
`startloc`, `sessionName` and `Visibility` are present (last occurrences,
with a valid Visibility token), parsing succeeds, and unknown extra keys are
ignored. -/
theorem C6_world_properties_amended (s : List Char) :
    (∀ (v1 v2 v3 : List Char) (vis : SessionVisiblity),
        (∀ seg ∈ (rsSplit '?' s).drop 1, '=' ∈ seg) →
        lookupLast "startloc".data (segPairs s) = some v1 →
        lookupLast "sessionName".data (segPairs s) = some v2 →
        lookupLast "Visibility".data (segPairs s) = some v3 →
        SessionVisiblity.parse v3 = .ok vis →
        WorldProperties.new s = .ok ⟨v1, v2, vis⟩) ∧
    (∀ seg ∈ (rsSplit '?' s).drop 1, '=' ∉ seg →
        (WorldProperties.new s).isOk = false) := by
  constructor
  · intro v1 v2 v3 vis hall h1 h2 h3 hvis
    exact worldProperties_new_ok s (segPairs s) v1 v2 v3 vis
      (splitSegments_ok _ hall) h1 h2 h3 hvis
  · intro seg hmem hno
    obtain ⟨m, hm⟩ := splitSegments_err _ seg hmem hno
    have hnew : WorldProperties.new s = .error (.err m) := by
      unfold WorldProperties.new
      rw [hm]
      rfl
    rw [hnew]
    rfl

theorem C6_world_properties_witness :
    WorldProperties.new
        "?startloc=Grass Fields?sessionName=test_file?Visibility=SV_Private".data =
      .ok ⟨"Grass Fields".data, "test_file".data, .SvPrivate⟩ ∧
    (WorldProperties.new "?noequals".data).isOk = false :=
  ⟨(C6_world_properties_amended _).1 "Grass Fields".data "test_file".data
      "SV_Private".data .SvPrivate (by decide) (by decide) (by decide) (by decide) (by decide),
   (C6_world_properties_amended _).2 "noequals".data (by decide) (by decide)⟩

/-- C10: duplicate required keys are not an error; each `WorldProperties`
field holds the value of the last occurrence of its key in the input (the
`HashMap` collect overwrites earlier entries).  Here every required key
occurs twice and every field takes the second occurrence, including the
`Visibility` token which parses from the last occurrence only. -/
theorem C10_duplicate_last_wins (v1 n1 v2 n2 : List Char)
    (hv1 : '?' ∉ v1) (hn1 : '?' ∉ n1) (hv2 : '?' ∉ v2) (hn2 : '?' ∉ n2) :
    WorldProperties.new (qJoin
      ["startloc".data ++ '=' :: v1,
       "sessionName".data ++ '=' :: n1,
       "Visibility".data ++ '=' :: "SV_Invalid".data,
       "startloc".data ++ '=' :: v2,
       "sessionName".data ++ '=' :: n2,
       "Visibility".data ++ '=' :: "SV_Private".data]) =
      .ok ⟨v2, n2, .SvPrivate⟩ := by
  have hq : ∀ (k v : List Char), '?' ∉ k → '?' ∉ v → ('?' ∉ k ++ '=' :: v) := by
    intro k v hk hvv hmem
    rcases List.mem_append.mp hmem with hc | hc
    · exact hk hc
    · rcases List.mem_cons.mp hc with hc2 | hc2
      · exact absurd hc2 (by decide)
      · exact hvv hc2
  have hall : ∀ seg ∈
      ["startloc".data ++ '=' :: v1,
       "sessionName".data ++ '=' :: n1,
       "Visibility".data ++ '=' :: "SV_Invalid".data,
       "startloc".data ++ '=' :: v2,
       "sessionName".data ++ '=' :: n2,
       "Visibility".data ++ '=' :: "SV_Private".data], '?' ∉ seg := by
    intro seg hmem
    fin_cases hmem
    · exact hq _ _ (by decide) hv1
    · exact hq _ _ (by decide) hn1
    · exact hq _ _ (by decide) (by decide)
    · exact hq _ _ (by decide) hv2
    · exact hq _ _ (by decide) hn2
    · exact hq _ _ (by decide) (by decide)
  have hdrop := rsSplit_qJoin _ hall
  have e0 : splitSegments ([] : List (List Char)) = .ok [] := rfl
  have e1 := splitSegments_cons_ok _ _ _
    (splitOnce_key_val '=' "Visibility".data "SV_Private".data (by decide)) _ e0
  have e2 := splitSegments_cons_ok _ _ _
    (splitOnce_key_val '=' "sessionName".data n2 (by decide)) _ e1
  have e3 := splitSegments_cons_ok _ _ _
    (splitOnce_key_val '=' "startloc".data v2 (by decide)) _ e2
  have e4 := splitSegments_cons_ok _ _ _
    (splitOnce_key_val '=' "Visibility".data "SV_Invalid".data (by decide)) _ e3
  have e5 := splitSegments_cons_ok _ _ _
    (splitOnce_key_val '=' "sessionName".data n1 (by decide)) _ e4
  have e6 := splitSegments_cons_ok _ _ _
    (splitOnce_key_val '=' "startloc".data v1 (by decide)) _ e5
  have lsl : lookupLast "startloc".data
      [("startloc".data, v1), ("sessionName".data, n1),
       ("Visibility".data, "SV_Invalid".data), ("startloc".data, v2),
       ("sessionName".data, n2), ("Visibility".data, "SV_Private".data)] = some v2 := by
    apply lookupLast_cons_of_some
    rw [lookupLast_cons_ne _ _ _ _ (by decide), lookupLast_cons_ne _ _ _ _ (by decide)]
    apply lookupLast_cons_found
    rw [lookupLast_cons_ne _ _ _ _ (by decide), lookupLast_cons_ne _ _ _ _ (by decide)]
    rfl
  have lsn : lookupLast "sessionName".data
      [("startloc".data, v1), ("sessionName".data, n1),
       ("Visibility".data, "SV_Invalid".data), ("startloc".data, v2),
       ("sessionName".data, n2), ("Visibility".data, "SV_Private".data)] = some n2 := by
    rw [lookupLast_cons_ne _ _ _ _ (by decide)]
    apply lookupLast_cons_of_some
    rw [lookupLast_cons_ne _ _ _ _ (by decide), lookupLast_cons_ne _ _ _ _ (by decide)]
    apply lookupLast_cons_found
    rw [lookupLast_cons_ne _ _ _ _ (by decide)]
    rfl
  have lv : lookupLast "Visibility".data
      [("startloc".data, v1), ("sessionName".data, n1),
       ("Visibility".data, "SV_Invalid".data), ("startloc".data, v2),
       ("sessionName".data, n2), ("Visibility".data, "SV_Private".data)] =
      some "SV_Private".data := by
    rw [lookupLast_cons_ne _ _ _ _ (by decide), lookupLast_cons_ne _ _ _ _ (by decide)]
    apply lookupLast_cons_of_some
    rw [lookupLast_cons_ne _ _ _ _ (by decide), lookupLast_cons_ne _ _ _ _ (by decide)]
    apply lookupLast_cons_found
    rfl
  apply worldProperties_new_ok _ _ v2 n2 "SV_Private".data .SvPrivate _ lsl lsn lv (by decide)
  rw [show (rsSplit '?' (qJoin
      ["startloc".data ++ '=' :: v1,
       "sessionName".data ++ '=' :: n1,
       "Visibility".data ++ '=' :: "SV_Invalid".data,
       "startloc".data ++ '=' :: v2,
       "sessionName".data ++ '=' :: n2,
       "Visibility".data ++ '=' :: "SV_Private".data])).drop 1 =
      ["startloc".data ++ '=' :: v1,
       "sessionName".data ++ '=' :: n1,
       "Visibility".data ++ '=' :: "SV_Invalid".data,
       "startloc".data ++ '=' :: v2,
       "sessionName".data ++ '=' :: n2,
       "Visibility".data ++ '=' :: "SV_Private".data] from by rw [hdrop]; rfl]
  exact e6

theorem C10_duplicate_last_wins_witness :
    WorldProperties.new (qJoin
      ["startloc".data ++ '=' :: "a".data,
       "sessionName".data ++ '=' :: "c".data,
       "Visibility".data ++ '=' :: "SV_Invalid".data,
       "startloc".data ++ '=' :: "b".data,
       "sessionName".data ++ '=' :: "d".data,
       "Visibility".data ++ '=' :: "SV_Private".data]) =
      .ok ⟨"b".data, "d".data, .SvPrivate⟩ :=
  C10_duplicate_last_wins "a".data "c".data "b".data "d".data
    (by decide) (by decide) (by decide) (by decide)

end Sat
